import Mathlib

/-!
Shallow embedding of the component lifecycle controller of
`well-known-components/interfaces` (`src/utils/lifecycle.ts`).

The controller is single-threaded cooperative JavaScript: every `await`
is a suspension point and, crucially, `startComponentsLifecycle` awaits
each component's start promise *inside* the dispatch loop, so the whole
lifecycle is a deterministic sequential computation.  We model it as a
pure interpreter over an abstract description of each component's hook
behaviour, producing a trace of observable events (hook invocations,
log lines) together with the final outcome and the `mutLive` /
`mutStarted` flags.

Correspondence with the source:
  * `Entry`                 — one registry value (an `IBaseComponent`);
                              `isThenable` models a value for which
                              `(await components[c]) !== components[c]`,
                              i.e. the caller registered a Promise.
  * `resolveStart`/`resolveStop` — the `if (typeof component[START_COMPONENT]
                              == "function") ... else if (component.start ...)`
                              capability-resolution blocks.
  * `startLoop`             — the `for (let c in components)` loop of
                              `startComponentsLifecycle` (lines 71–111).
  * `startComponentsLifecycle` — the whole function, lines 52–126.
  * `promiseAll`            — `Promise.all` applied to the (already
                              settled) `pending` list.
  * `allSettled`            — the local `allSettled` helper, lines 28–49.
  * `stopLoop`/`stopAllComponents` — `stopAllComponents`, lines 10–26.
  * `drainHooks`            — the `beforeStopComponents` closure that
                              destructively `shift`s the handler queue,
                              lines 223–232.
  * `stopProgram` / `stop`  — lines 234–239 and 259–261 (the
                              `process.off` calls touch only signal
                              bookkeeping and are not observable here).
  * `startComponents`       — the guarded method, lines 262–271; the JS
                              memoizes the promise, the model memoizes
                              its settled outcome.
Hook rejection reasons are opaque JS values; we model them as `Nat`.
-/

namespace Lifecycle

/-- Which naming convention a lifecycle hook was found under:
the current symbolic key (`[START_COMPONENT]`/`[STOP_COMPONENT]`)
or the deprecated plain `start`/`stop` name. -/
inductive Conv
  | current
  | deprecated
deriving DecidableEq, Repr

/-- Behaviour of a start hook when invoked: return a non-thenable
value (synchronous completion), return a promise that fulfills, or
return a promise that rejects with the given reason. -/
inductive StartBehavior
  | sync
  | ok
  | fail (reason : Nat)
deriving DecidableEq, Repr

/-- Behaviour of a stop hook when invoked. -/
inductive StopBehavior
  | ok
  | fail (reason : Nat)
deriving DecidableEq, Repr

/-- Behaviour of a `beforeStopComponents` handler when invoked. -/
inductive HookBehavior
  | ok
  | fail (reason : Nat)
deriving DecidableEq, Repr

/-- One registry value.  `isThenable` marks a value for which
`(await components[c]) !== components[c]` holds (a Promise was
registered).  The four optional hooks mirror `IBaseComponent`:
`startC`/`stopC` are the current symbolic-key hooks, `startD`/`stopD`
are the deprecated plain-named ones. -/
structure Entry where
  isThenable : Bool := false
  startC : Option StartBehavior := none
  startD : Option StartBehavior := none
  stopC : Option StopBehavior := none
  stopD : Option StopBehavior := none
deriving DecidableEq, Repr

/-- The registry: an insertion-ordered map name → component value.
`none` models a null/undefined entry.  JS object iteration
(`for..in`, `Object.keys`) follows insertion order for string keys. -/
abbrev Registry := List (String × Option Entry)

/-- Log severities used by the `log` helper of the source. -/
inductive LogLevel
  | debug
  | warn
  | info
  | error
deriving DecidableEq, Repr

/-- The distinct diagnostic messages the controller writes to stderr. -/
inductive LogMsg
  | startingComponents
  | promiseComponent (c : String)
  | startingComponent (c : String)
  | deprecatedStart (c : String)
  | deprecatedStop (c : String)
  | stoppingComponent (c : String)
  | errorInitializing
  | errorInitializingComponent (c : String)
  | startOnceWarning
  | hookError (reason : Nat)
deriving DecidableEq, Repr

/-- Observable events, in program order.  `startCall c conv l s`
records that component `c`'s start hook (found under convention
`conv`) was invoked while `live()` returned `l` and `started()`
returned `s` — i.e. the values the hook observes through the
`StartOptions` closure at dispatch time.  `startResolved` records the
in-loop `await awaitable` completing successfully. -/
inductive Event
  | log (level : LogLevel) (msg : LogMsg)
  | startCall (c : String) (conv : Conv) (live started : Bool)
  | startResolved (c : String)
  | stopCall (c : String) (conv : Conv)
  | hookRun (id : Nat)
deriving DecidableEq, Repr

/-- Errors thrown by the controller: the two explicit `throw new
Error(...)` sites for null entries, and re-thrown hook rejection
reasons (propagated as-is, so they carry no origin tag). -/
inductive Err
  | nullOrEmpty (c : String)
  | nullComponent (c : String)
  | reason (e : Nat)
deriving DecidableEq, Repr

instance {ε α : Type} [DecidableEq ε] [DecidableEq α] : DecidableEq (Except ε α) := fun a b =>
  match a, b with
  | Except.ok x, Except.ok y =>
    if h : x = y then isTrue (by rw [h]) else isFalse (by intro hc; cases hc; exact h rfl)
  | Except.error x, Except.error y =>
    if h : x = y then isTrue (by rw [h]) else isFalse (by intro hc; cases hc; exact h rfl)
  | Except.ok _, Except.error _ => isFalse (by intro hc; cases hc)
  | Except.error _, Except.ok _ => isFalse (by intro hc; cases hc)

/-- Capability resolution for start hooks:
`if (typeof component[START_COMPONENT] == "function") startFn = ...
else if (component.start && typeof component.start == "function") ...`
(lines 81–90).  The current convention takes precedence. -/
def resolveStart (en : Entry) : Option (Conv × StartBehavior) :=
  match en.startC with
  | some b => some (Conv.current, b)
  | none =>
    match en.startD with
    | some b => some (Conv.deprecated, b)
    | none => none

/-- Capability resolution for stop hooks (lines 15–24), mirroring
`resolveStart`. -/
def resolveStop (en : Entry) : Option (Conv × StopBehavior) :=
  match en.stopC with
  | some b => some (Conv.current, b)
  | none =>
    match en.stopD with
    | some b => some (Conv.deprecated, b)
    | none => none

/-- A settled promise from a start hook: `Except.ok ()` fulfilled,
`Except.error e` rejected with reason `e`. -/
abbrev StartOutcome := Except Nat Unit

/-- The `for (let c in components)` loop of `startComponentsLifecycle`
(lines 71–111).  `live`/`started` are the values of `mutLive` /
`mutStarted` during the loop (they are mutated only after it);
`pending` accumulates the promises pushed onto the `pending` array.
Per entry, in source order:
  * the `(await components[c]) !== components[c]` check only *logs* an
    error for a thenable entry (`await null` is `null`, so a null
    entry logs nothing);
  * a null entry throws `"Null or empty components are not allowed"`;
  * the start capability is resolved, logging a deprecation warning
    when the deprecated name is used;
  * the hook is invoked; if it returns a thenable, that thenable is
    pushed onto `pending` and immediately awaited (`await awaitable`,
    line 97) — a rejection therefore propagates out of the loop right
    here, before the `awaitable.catch(...)` logger is ever attached
    and before any later component is dispatched; on fulfillment the
    attached `.catch` handler never fires. -/
def startLoop (live started : Bool) (pending : List StartOutcome) :
    Registry → List Event × Except Err (List StartOutcome)
  | [] => ([], Except.ok pending)
  | (c, none) :: _ => ([], Except.error (Err.nullOrEmpty c))
  | (c, some en) :: rest =>
    let evP : List Event :=
      if en.isThenable then [Event.log LogLevel.error (LogMsg.promiseComponent c)] else []
    match resolveStart en with
    | none =>
      let r := startLoop live started pending rest
      (evP ++ r.1, r.2)
    | some (conv, b) =>
      let evW : List Event :=
        match conv with
        | Conv.current => []
        | Conv.deprecated => [Event.log LogLevel.warn (LogMsg.deprecatedStart c)]
      let evC : List Event :=
        evP ++ evW ++
          [Event.log LogLevel.debug (LogMsg.startingComponent c),
           Event.startCall c conv live started]
      match b with
      | StartBehavior.sync =>
        let r := startLoop live started pending rest
        (evC ++ r.1, r.2)
      | StartBehavior.ok =>
        let r := startLoop live started (pending ++ [Except.ok ()]) rest
        (evC ++ [Event.startResolved c] ++ r.1, r.2)
      | StartBehavior.fail e =>
        (evC, Except.error (Err.reason e))

/-- `Promise.all` restricted to an already-settled list: rejects with
the first rejection reason in list order, fulfills otherwise. -/
def promiseAll : List StartOutcome → Except Nat Unit
  | [] => Except.ok ()
  | Except.ok _ :: rest => promiseAll rest
  | Except.error e :: _ => Except.error e

/-- Result shape of the local `allSettled` helper (lines 28–49).  Note
the helper's quirk: because `r` is reassigned to `p.catch(...)`
whenever `p` has a `catch` method, a fulfilled promise's value passes
through *unwrapped* instead of as a `{status: "fulfilled"}` record. -/
inductive SettledItem
  | passthroughValue
  | rejectedStatus (reason : Nat)
deriving DecidableEq, Repr

/-- The local `allSettled` helper applied to the settled `pending`
list: it waits for every promise and never rejects; its result is
discarded by the caller. -/
def allSettled (ps : List StartOutcome) : List SettledItem :=
  ps.map fun p =>
    match p with
    | Except.ok _ => SettledItem.passthroughValue
    | Except.error e => SettledItem.rejectedStatus e

/-- Everything observable about one run of `startComponentsLifecycle`:
the event trace, the outcome of the returned promise, and the final
values of the `mutLive`/`mutStarted` flags (the values the
`StartOptions` closure would report afterwards). -/
structure LifecycleResult where
  trace : List Event
  result : Except Err Unit
  live : Bool
  started : Bool
deriving DecidableEq, Repr

/-- `startComponentsLifecycle` (lines 52–126).  After the dispatch
loop: `mutLive = true`; if `pending` is empty the function returns
*before* `mutStarted` is ever set; otherwise `Promise.all(pending)`
is awaited — on success `mutStarted = true`, on failure the error is
logged, `allSettled(pending)` is awaited (its result discarded; no
stop hook is invoked anywhere in this function) and the original
rejection is re-thrown. -/
def startComponentsLifecycle (cs : Registry) : LifecycleResult :=
  let ev0 : List Event := [Event.log LogLevel.info LogMsg.startingComponents]
  let p := startLoop false false [] cs
  match p.2 with
  | Except.error e => ⟨ev0 ++ p.1, Except.error e, false, false⟩
  | Except.ok pending =>
    if pending.length = 0 then
      ⟨ev0 ++ p.1, Except.ok (), true, false⟩
    else
      match promiseAll pending with
      | Except.ok _ => ⟨ev0 ++ p.1, Except.ok (), true, true⟩
      | Except.error e =>
        let _settled := allSettled pending
        ⟨ev0 ++ p.1 ++ [Event.log LogLevel.error LogMsg.errorInitializing],
         Except.error (Err.reason e), true, false⟩

/-- The body of `stopAllComponents` iterating over the reversed key
list (lines 12–25).  A null entry throws; otherwise the stop
capability is resolved (current convention first, deprecated with a
warning) and, when present, invoked and fully awaited — a rejection
propagates immediately, aborting the remaining iterations. -/
def stopLoop : Registry → List Event × Except Err Unit
  | [] => ([], Except.ok ())
  | (c, none) :: _ => ([], Except.error (Err.nullComponent c))
  | (c, some en) :: rest =>
    match resolveStop en with
    | none => stopLoop rest
    | some (conv, b) =>
      let evW : List Event :=
        match conv with
        | Conv.current => []
        | Conv.deprecated => [Event.log LogLevel.warn (LogMsg.deprecatedStop c)]
      let evC : List Event :=
        [Event.log LogLevel.info (LogMsg.stoppingComponent c)] ++ evW ++
          [Event.stopCall c conv]
      match b with
      | StopBehavior.ok =>
        let r := stopLoop rest
        (evC ++ r.1, r.2)
      | StopBehavior.fail e =>
        (evC, Except.error (Err.reason e))

/-- `stopAllComponents` (lines 10–26): iterate
`Object.keys(components).reverse()`. -/
def stopAllComponents (cs : Registry) : List Event × Except Err Unit :=
  stopLoop cs.reverse

/-- One registered `beforeStopComponents` handler; `id` identifies the
registration. -/
structure Hook where
  id : Nat
  behavior : HookBehavior
deriving DecidableEq, Repr

/-- The `beforeStopComponents` drain closure (lines 223–232): while
the handler queue is non-empty, `shift` the first handler off the
queue and await it; a rejection is logged (`log('ERROR', e)` and
`console.error`) and swallowed.  Handlers are modelled as not
re-registering during the drain. -/
def drainHooks : List Hook → List Event
  | [] => []
  | h :: rest =>
    match h.behavior with
    | HookBehavior.ok => Event.hookRun h.id :: drainHooks rest
    | HookBehavior.fail e =>
      Event.hookRun h.id :: Event.log LogLevel.error (LogMsg.hookError e) :: drainHooks rest

/-- The mutable state captured by the closures inside `Lifecycle.run`:
the frozen registry, the `beforeStopComponentHandlers` queue, and the
`componentsStarted` memo (`none` = never called; the JS stores the
promise, the model its settled outcome). -/
structure ProgState where
  components : Registry
  queue : List Hook
  componentsStarted : Option (Except Err Unit)
deriving Repr

/-- Result of invoking one of the program-handle methods: the state
afterwards, the events emitted during the call, and the outcome of
the returned promise. -/
structure CallResult where
  state : ProgState
  trace : List Event
  result : Except Err Unit

/-- `program.beforeStopComponents(callback)` (lines 256–258): push the
handler onto the queue. -/
def beforeStopComponents (st : ProgState) (h : Hook) : ProgState :=
  { st with queue := st.queue ++ [h] }

/-- `stopProgram` (lines 234–239): deregister the signal listeners
(signal bookkeeping, not observable here), drain the
`beforeStopComponents` queue destructively, then run
`stopAllComponents` on the (unchanged, frozen) registry. -/
def stopProgram (st : ProgState) : CallResult :=
  let tr1 := drainHooks st.queue
  let r := stopAllComponents st.components
  ⟨{ st with queue := [] }, tr1 ++ r.1, r.2⟩

/-- `program.stop()` (lines 259–261): `await stopProgram()`. -/
def stop (st : ProgState) : CallResult :=
  stopProgram st

/-- `program.startComponents()` (lines 262–271): the first call
assigns `componentsStarted := startComponentsLifecycle(components)`;
any later call logs a warning and returns the same memoized
completion without dispatching anything. -/
def startComponents (st : ProgState) : CallResult :=
  match st.componentsStarted with
  | none =>
    let r := startComponentsLifecycle st.components
    ⟨{ st with componentsStarted := some r.result }, r.trace, r.result⟩
  | some res =>
    ⟨st, [Event.log LogLevel.warn LogMsg.startOnceWarning], res⟩

/-- The start-hook invocations recorded in a trace, in order. -/
def startCalls (tr : List Event) : List (String × Conv) :=
  tr.filterMap fun ev =>
    match ev with
    | Event.startCall c conv _ _ => some (c, conv)
    | _ => none

/-- The stop-hook invocations recorded in a trace, in order. -/
def stopCalls (tr : List Event) : List (String × Conv) :=
  tr.filterMap fun ev =>
    match ev with
    | Event.stopCall c conv => some (c, conv)
    | _ => none

/-- The `beforeStopComponents`-handler invocations recorded in a
trace, in order. -/
def hookRuns (tr : List Event) : List Nat :=
  tr.filterMap fun ev =>
    match ev with
    | Event.hookRun i => some i
    | _ => none

/-- The `(live, started)` pairs observed (through the `StartOptions`
closure) by each invoked start hook, in invocation order. -/
def startObservations (tr : List Event) : List (Bool × Bool) :=
  tr.filterMap fun ev =>
    match ev with
    | Event.startCall _ _ l s => some (l, s)
    | _ => none

/-- An entry whose processing by the start loop neither throws nor
rejects: non-null, and its resolved start hook (if any) does not
fail. -/
def startsCleanly (p : String × Option Entry) : Bool :=
  match p.2 with
  | none => false
  | some en =>
    match resolveStart en with
    | some (_, StartBehavior.fail _) => false
    | _ => true

/-- An entry whose resolved start hook returns no pending operation:
non-null and the hook is absent or completes synchronously. -/
def syncOnlyStart (p : String × Option Entry) : Bool :=
  match p.2 with
  | none => false
  | some en =>
    match resolveStart en with
    | none => true
    | some (_, StartBehavior.sync) => true
    | _ => false

/-- An entry whose processing by the stop loop neither throws nor
rejects: non-null, and its resolved stop hook (if any) does not
fail. -/
def stopsCleanly (p : String × Option Entry) : Bool :=
  match p.2 with
  | none => false
  | some en =>
    match resolveStop en with
    | some (_, StopBehavior.fail _) => false
    | _ => true

/-- An entry exposing a stop hook under either convention. -/
def hasStopHook (p : String × Option Entry) : Bool :=
  match p.2 with
  | none => false
  | some en => (resolveStop en).isSome

/-! ### Concrete scenario inputs -/

/-- Registry `{a: succeeds asynchronously, b: start rejects}`, both
with stop hooks — the spec's rollback scenario. -/
def regStartFail : Registry :=
  [("a", some { startC := some StartBehavior.ok, stopC := some StopBehavior.ok }),
   ("b", some { startC := some (StartBehavior.fail 7), stopC := some StopBehavior.ok })]

/-- Registry whose first entry is a registered Promise (the caller
forgot an `await`), followed by a normal component. -/
def regPromise : Registry :=
  [("p", some { isThenable := true }),
   ("b", some { startC := some StartBehavior.ok })]

/-- Registry with a single component whose start hook returns a
fulfilling pending operation. -/
def regOnePending : Registry :=
  [("a", some { startC := some StartBehavior.ok })]

/-- Registry with two components exposing stop hooks, one per naming
convention. -/
def regTwoStops : Registry :=
  [("a", some { stopC := some StopBehavior.ok }),
   ("b", some { stopD := some StopBehavior.ok })]

/-- Registry of three stoppable components whose middle stop hook
rejects (reason 9). -/
def regStopFail : Registry :=
  [("a", some { stopC := some StopBehavior.ok }),
   ("b", some { stopC := some (StopBehavior.fail 9) }),
   ("c", some { stopC := some StopBehavior.ok })]

/-- Program state with one stoppable component and one registered
`beforeStopComponents` handler. -/
def stStopTwice : ProgState :=
  ⟨[("a", some { stopC := some StopBehavior.ok })], [⟨0, HookBehavior.ok⟩], none⟩

/-- Freshly wired program state: `startComponents()` not yet called. -/
def stFresh : ProgState :=
  ⟨regOnePending, [], none⟩

/-! ### Computation lemmas for the trace extractors -/

@[simp] lemma startCalls_nil : startCalls [] = [] := rfl

@[simp] lemma startCalls_append (t1 t2 : List Event) :
    startCalls (t1 ++ t2) = startCalls t1 ++ startCalls t2 := by
  simp [startCalls, List.filterMap_append]

@[simp] lemma startCalls_cons_log (lv : LogLevel) (m : LogMsg) (tr : List Event) :
    startCalls (Event.log lv m :: tr) = startCalls tr := rfl

@[simp] lemma startCalls_cons_startCall (c : String) (conv : Conv) (l s : Bool)
    (tr : List Event) :
    startCalls (Event.startCall c conv l s :: tr) = (c, conv) :: startCalls tr := rfl

@[simp] lemma startCalls_cons_startResolved (c : String) (tr : List Event) :
    startCalls (Event.startResolved c :: tr) = startCalls tr := rfl

@[simp] lemma startCalls_cons_stopCall (c : String) (conv : Conv) (tr : List Event) :
    startCalls (Event.stopCall c conv :: tr) = startCalls tr := rfl

@[simp] lemma startCalls_cons_hookRun (i : Nat) (tr : List Event) :
    startCalls (Event.hookRun i :: tr) = startCalls tr := rfl

@[simp] lemma stopCalls_nil : stopCalls [] = [] := rfl

@[simp] lemma stopCalls_append (t1 t2 : List Event) :
    stopCalls (t1 ++ t2) = stopCalls t1 ++ stopCalls t2 := by
  simp [stopCalls, List.filterMap_append]

@[simp] lemma stopCalls_cons_log (lv : LogLevel) (m : LogMsg) (tr : List Event) :
    stopCalls (Event.log lv m :: tr) = stopCalls tr := rfl

@[simp] lemma stopCalls_cons_startCall (c : String) (conv : Conv) (l s : Bool)
    (tr : List Event) :
    stopCalls (Event.startCall c conv l s :: tr) = stopCalls tr := rfl

@[simp] lemma stopCalls_cons_startResolved (c : String) (tr : List Event) :
    stopCalls (Event.startResolved c :: tr) = stopCalls tr := rfl

@[simp] lemma stopCalls_cons_stopCall (c : String) (conv : Conv) (tr : List Event) :
    stopCalls (Event.stopCall c conv :: tr) = (c, conv) :: stopCalls tr := rfl

@[simp] lemma stopCalls_cons_hookRun (i : Nat) (tr : List Event) :
    stopCalls (Event.hookRun i :: tr) = stopCalls tr := rfl

@[simp] lemma hookRuns_nil : hookRuns [] = [] := rfl

@[simp] lemma hookRuns_append (t1 t2 : List Event) :
    hookRuns (t1 ++ t2) = hookRuns t1 ++ hookRuns t2 := by
  simp [hookRuns, List.filterMap_append]

@[simp] lemma hookRuns_cons_log (lv : LogLevel) (m : LogMsg) (tr : List Event) :
    hookRuns (Event.log lv m :: tr) = hookRuns tr := rfl

@[simp] lemma hookRuns_cons_startCall (c : String) (conv : Conv) (l s : Bool)
    (tr : List Event) :
    hookRuns (Event.startCall c conv l s :: tr) = hookRuns tr := rfl

@[simp] lemma hookRuns_cons_startResolved (c : String) (tr : List Event) :
    hookRuns (Event.startResolved c :: tr) = hookRuns tr := rfl

@[simp] lemma hookRuns_cons_stopCall (c : String) (conv : Conv) (tr : List Event) :
    hookRuns (Event.stopCall c conv :: tr) = hookRuns tr := rfl

@[simp] lemma hookRuns_cons_hookRun (i : Nat) (tr : List Event) :
    hookRuns (Event.hookRun i :: tr) = i :: hookRuns tr := rfl

@[simp] lemma startObservations_nil : startObservations [] = [] := rfl

@[simp] lemma startObservations_append (t1 t2 : List Event) :
    startObservations (t1 ++ t2) = startObservations t1 ++ startObservations t2 := by
  simp [startObservations, List.filterMap_append]

@[simp] lemma startObservations_cons_log (lv : LogLevel) (m : LogMsg) (tr : List Event) :
    startObservations (Event.log lv m :: tr) = startObservations tr := rfl

@[simp] lemma startObservations_cons_startCall (c : String) (conv : Conv) (l s : Bool)
    (tr : List Event) :
    startObservations (Event.startCall c conv l s :: tr) = (l, s) :: startObservations tr := rfl

@[simp] lemma startObservations_cons_startResolved (c : String) (tr : List Event) :
    startObservations (Event.startResolved c :: tr) = startObservations tr := rfl

@[simp] lemma startObservations_cons_stopCall (c : String) (conv : Conv) (tr : List Event) :
    startObservations (Event.stopCall c conv :: tr) = startObservations tr := rfl

@[simp] lemma startObservations_cons_hookRun (i : Nat) (tr : List Event) :
    startObservations (Event.hookRun i :: tr) = startObservations tr := rfl

/-! ### Structural lemmas about the start loop -/

/-- The start loop never emits a stop-hook invocation. -/
lemma startLoop_no_stopCalls (cs : Registry) : ∀ (l s : Bool) (pending : List StartOutcome),
    stopCalls (startLoop l s pending cs).1 = [] := by
  induction cs with
  | nil => intro l s pending; simp [startLoop]
  | cons p rest ih =>
    intro l s pending
    obtain ⟨c, oe⟩ := p
    cases oe with
    | none => simp [startLoop]
    | some en =>
      by_cases ht : en.isThenable <;>
      · cases hr : resolveStart en with
        | none => simp [startLoop, hr, ht, ih]
        | some cb =>
          obtain ⟨conv, b⟩ := cb
          cases b <;> cases conv <;> simp [startLoop, hr, ht, ih]

/-- Every start hook invoked by the loop observes exactly the
`live`/`started` values the loop was entered with. -/
lemma startLoop_observations (cs : Registry) :
    ∀ (l s : Bool) (pending : List StartOutcome) (q : Bool × Bool),
    q ∈ startObservations (startLoop l s pending cs).1 → q = (l, s) := by
  induction cs with
  | nil => intro l s pending q hq; simp [startLoop] at hq
  | cons p rest ih =>
    intro l s pending q hq
    obtain ⟨c0, oe⟩ := p
    cases oe with
    | none => simp [startLoop] at hq
    | some en =>
      by_cases ht : en.isThenable <;>
      · cases hr : resolveStart en with
        | none =>
          simp [startLoop, hr, ht] at hq
          exact ih l s pending q hq
        | some cb =>
          obtain ⟨conv0, b⟩ := cb
          cases b <;> cases conv0 <;>
          · simp [startLoop, hr, ht] at hq
            first
              | exact hq
              | (rcases hq with hq | hq
                 · exact hq
                 · first
                     | exact ih l s pending q hq
                     | exact ih l s (pending ++ [Except.ok ()]) q hq)

/-- `Promise.all` of a list of fulfilled promises fulfills. -/
lemma promiseAll_all_ok (ps : List StartOutcome) (h : ∀ q ∈ ps, q = Except.ok ()) :
    promiseAll ps = Except.ok () := by
  induction ps with
  | nil => rfl
  | cons p rest ih =>
    have hp := h p (List.mem_cons_self p rest)
    subst hp
    exact ih fun q hq => h q (List.mem_cons_of_mem _ hq)

/-- On a registry whose entries all start cleanly, the loop neither
throws nor rejects, and every promise it accumulates (on top of an
all-fulfilled accumulator) is fulfilled. -/
lemma startLoop_clean_ok (cs : Registry) (h : ∀ p ∈ cs, startsCleanly p = true) :
    ∀ (l s : Bool) (pending : List StartOutcome), (∀ q ∈ pending, q = Except.ok ()) →
    ∃ pend2, (startLoop l s pending cs).2 = Except.ok pend2 ∧ ∀ q ∈ pend2, q = Except.ok () := by
  induction cs with
  | nil => intro l s pending hp; exact ⟨pending, rfl, hp⟩
  | cons p rest ih =>
    intro l s pending hp
    obtain ⟨c, oe⟩ := p
    have hhead := h (c, oe) (List.mem_cons_self _ rest)
    have htail : ∀ p ∈ rest, startsCleanly p = true :=
      fun p hm => h p (List.mem_cons_of_mem _ hm)
    cases oe with
    | none => simp [startsCleanly] at hhead
    | some en =>
      by_cases ht : en.isThenable <;>
      · cases hr : resolveStart en with
        | none =>
          obtain ⟨pend2, h1, h2⟩ := ih htail l s pending hp
          exact ⟨pend2, by simp [startLoop, hr, ht, h1], h2⟩
        | some cb =>
          obtain ⟨conv, b⟩ := cb
          cases b with
          | sync =>
            obtain ⟨pend2, h1, h2⟩ := ih htail l s pending hp
            exact ⟨pend2, by cases conv <;> simp [startLoop, hr, ht, h1], h2⟩
          | ok =>
            have hp2 : ∀ q ∈ pending ++ [Except.ok ()], q = Except.ok () := by
              intro q hq
              rcases List.mem_append.mp hq with hq | hq
              · exact hp q hq
              · simpa using hq
            obtain ⟨pend2, h1, h2⟩ := ih htail l s (pending ++ [Except.ok ()]) hp2
            exact ⟨pend2, by cases conv <;> simp [startLoop, hr, ht, h1], h2⟩
          | fail e => simp [startsCleanly, hr] at hhead

/-- On a registry whose entries resolve to no pending operation at
all, the loop returns the accumulator unchanged. -/
lemma startLoop_syncOnly (cs : Registry) (h : ∀ p ∈ cs, syncOnlyStart p = true) :
    ∀ (l s : Bool) (pending : List StartOutcome),
    (startLoop l s pending cs).2 = Except.ok pending := by
  induction cs with
  | nil => intro l s pending; rfl
  | cons p rest ih =>
    intro l s pending
    obtain ⟨c, oe⟩ := p
    have hhead := h (c, oe) (List.mem_cons_self _ rest)
    have htail : ∀ p ∈ rest, syncOnlyStart p = true :=
      fun p hm => h p (List.mem_cons_of_mem _ hm)
    cases oe with
    | none => simp [syncOnlyStart] at hhead
    | some en =>
      by_cases ht : en.isThenable <;>
      · cases hr : resolveStart en with
        | none => simp [startLoop, hr, ht, ih htail]
        | some cb =>
          obtain ⟨conv, b⟩ := cb
          cases b with
          | sync => cases conv <;> simp [startLoop, hr, ht, ih htail]
          | ok => simp [syncOnlyStart, hr] at hhead
          | fail e => simp [syncOnlyStart, hr] at hhead

/-- If every entry before position `k` starts cleanly and the entry at
`k` resolves to a start hook whose pending operation rejects with
reason `er`, the loop rejects with exactly that reason: the in-loop
`await` re-throws the first start failure and nothing can mask it. -/
lemma startLoop_clean_fail (c : String) (en : Entry) (conv : Conv) (er : Nat)
    (hres : resolveStart en = some (conv, StartBehavior.fail er)) :
    ∀ (as : Registry), (∀ p ∈ as, startsCleanly p = true) →
    ∀ (l s : Bool) (pending : List StartOutcome) (bs : Registry),
    (startLoop l s pending (as ++ (c, some en) :: bs)).2 = Except.error (Err.reason er) := by
  intro as
  induction as with
  | nil =>
    intro _ l s pending bs
    by_cases ht : en.isThenable <;> cases conv <;> simp [startLoop, hres, ht]
  | cons p rest ih =>
    intro h l s pending bs
    obtain ⟨c0, oe⟩ := p
    have hhead := h (c0, oe) (List.mem_cons_self _ rest)
    have htail : ∀ p ∈ rest, startsCleanly p = true :=
      fun p hm => h p (List.mem_cons_of_mem _ hm)
    cases oe with
    | none => simp [startsCleanly] at hhead
    | some en0 =>
      by_cases ht : en0.isThenable <;>
      · cases hr : resolveStart en0 with
        | none => simp [startLoop, hr, ht, ih htail]
        | some cb =>
          obtain ⟨conv0, b⟩ := cb
          cases b with
          | sync => cases conv0 <;> simp [startLoop, hr, ht, ih htail]
          | ok => cases conv0 <;> simp [startLoop, hr, ht, ih htail]
          | fail e => simp [startsCleanly, hr] at hhead

/-- A thenable entry of a cleanly-starting registry always gets its
configuration-error diagnostic logged (the loop reaches every entry). -/
lemma startLoop_thenable_mem (cs : Registry) (h : ∀ p ∈ cs, startsCleanly p = true)
    (c : String) (en : Entry) (hmem : (c, some en) ∈ cs) (hth : en.isThenable = true) :
    ∀ (l s : Bool) (pending : List StartOutcome),
    Event.log LogLevel.error (LogMsg.promiseComponent c) ∈ (startLoop l s pending cs).1 := by
  induction cs with
  | nil => cases hmem
  | cons p rest ih =>
    intro l s pending
    have htail : ∀ p ∈ rest, startsCleanly p = true :=
      fun p hm => h p (List.mem_cons_of_mem _ hm)
    rcases List.mem_cons.mp hmem with hhd | htl
    · subst hhd
      have hhead := h (c, some en) (List.mem_cons_self _ rest)
      cases hr : resolveStart en with
      | none => simp [startLoop, hr, hth]
      | some cb =>
        obtain ⟨conv, b⟩ := cb
        cases b with
        | sync => cases conv <;> simp [startLoop, hr, hth]
        | ok => cases conv <;> simp [startLoop, hr, hth]
        | fail e => simp [startsCleanly, hr] at hhead
    · obtain ⟨c0, oe⟩ := p
      have hhead := h (c0, oe) (List.mem_cons_self _ rest)
      cases oe with
      | none => simp [startsCleanly] at hhead
      | some en0 =>
        by_cases ht : en0.isThenable <;>
        · cases hr : resolveStart en0 with
          | none => simp [startLoop, hr, ht, ih htail htl]
          | some cb =>
            obtain ⟨conv0, b⟩ := cb
            cases b with
            | sync => cases conv0 <;> simp [startLoop, hr, ht, ih htail htl]
            | ok => cases conv0 <;> simp [startLoop, hr, ht, ih htail htl]
            | fail e => simp [startsCleanly, hr] at hhead

/-! ### Structural lemmas about the stop loop and the hook drain -/

/-- A cleanly-stopping registry segment is processed in full: its trace
is a prefix and the rest of the list decides the outcome. -/
lemma stopLoop_clean_append (ds : Registry) (h : ∀ p ∈ ds, stopsCleanly p = true) :
    ∀ rest : Registry,
    (stopLoop (ds ++ rest)).1 = (stopLoop ds).1 ++ (stopLoop rest).1 ∧
    (stopLoop (ds ++ rest)).2 = (stopLoop rest).2 := by
  induction ds with
  | nil => intro rest; simp [stopLoop]
  | cons p ds2 ih =>
    intro rest
    obtain ⟨c, oe⟩ := p
    have hhead := h (c, oe) (List.mem_cons_self _ ds2)
    have htail : ∀ p ∈ ds2, stopsCleanly p = true :=
      fun p hm => h p (List.mem_cons_of_mem _ hm)
    cases oe with
    | none => simp [stopsCleanly] at hhead
    | some en =>
      cases hr : resolveStop en with
      | none => simpa [stopLoop, hr] using ih htail rest
      | some cb =>
        obtain ⟨conv, b⟩ := cb
        cases b with
        | ok =>
          obtain ⟨h1, h2⟩ := ih htail rest
          cases conv <;> simp [stopLoop, hr, h1, h2]
        | fail e => simp [stopsCleanly, hr] at hhead

/-- A cleanly-stopping registry is stopped without error. -/
lemma stopLoop_clean_ok (ds : Registry) (h : ∀ p ∈ ds, stopsCleanly p = true) :
    (stopLoop ds).2 = Except.ok () := by
  have := stopLoop_clean_append ds h []
  simpa [stopLoop] using this.2

/-- On a cleanly-stopping registry whose entries all expose a stop
hook, the loop invokes exactly one stop per entry, in list order. -/
lemma stopLoop_clean_names (ds : Registry)
    (h : ∀ p ∈ ds, stopsCleanly p = true ∧ hasStopHook p = true) :
    (stopCalls (stopLoop ds).1).map Prod.fst = ds.map Prod.fst := by
  induction ds with
  | nil => simp [stopLoop]
  | cons p ds2 ih =>
    obtain ⟨c, oe⟩ := p
    obtain ⟨hclean, hhook⟩ := h (c, oe) (List.mem_cons_self _ ds2)
    have htail : ∀ p ∈ ds2, stopsCleanly p = true ∧ hasStopHook p = true :=
      fun p hm => h p (List.mem_cons_of_mem _ hm)
    cases oe with
    | none => simp [stopsCleanly] at hclean
    | some en =>
      cases hr : resolveStop en with
      | none => simp [hasStopHook, hr] at hhook
      | some cb =>
        obtain ⟨conv, b⟩ := cb
        cases b with
        | ok => cases conv <;> simp [stopLoop, hr, ih htail]
        | fail e => simp [stopsCleanly, hr] at hclean

/-- The stop loop never runs a `beforeStopComponents` handler. -/
lemma stopLoop_no_hookRuns (ds : Registry) : hookRuns (stopLoop ds).1 = [] := by
  induction ds with
  | nil => simp [stopLoop]
  | cons p ds2 ih =>
    obtain ⟨c, oe⟩ := p
    cases oe with
    | none => simp [stopLoop]
    | some en =>
      cases hr : resolveStop en with
      | none => simpa [stopLoop, hr] using ih
      | some cb =>
        obtain ⟨conv, b⟩ := cb
        cases b <;> cases conv <;> simp [stopLoop, hr, ih]

/-- Draining the handler queue runs every registered handler exactly
once, in FIFO registration order, regardless of failures. -/
lemma drainHooks_hookRuns (q : List Hook) : hookRuns (drainHooks q) = q.map Hook.id := by
  induction q with
  | nil => simp [drainHooks]
  | cons h rest ih =>
    cases hb : h.behavior <;> simp [drainHooks, hb, ih]

/-- Draining the handler queue never invokes a component stop hook. -/
lemma drainHooks_no_stopCalls (q : List Hook) : stopCalls (drainHooks q) = [] := by
  induction q with
  | nil => simp [drainHooks]
  | cons h rest ih =>
    cases hb : h.behavior <;> simp [drainHooks, hb, ih]

/-! ### Claim theorems -/

/-- C1, counterexample: in registry `{a: pending start that fulfills,
b: pending start that rejects with reason 7}`, both with stop hooks,
`startComponents()` rejects with the original start failure but `a` —
which had a pending start operation — receives **zero** stop calls,
not exactly one: the start sequencer never issues stop calls
(`allSettled` is applied to the pending *start* promises, and with
the in-loop `await` the rejection propagates before even that). -/
theorem C1_counterexample :
    (startComponentsLifecycle regStartFail).result = Except.error (Err.reason 7) ∧
    startCalls (startComponentsLifecycle regStartFail).trace =
      [("a", Conv.current), ("b", Conv.current)] ∧
    Event.startResolved "a" ∈ (startComponentsLifecycle regStartFail).trace ∧
    stopCalls (startComponentsLifecycle regStartFail).trace = [] := by
  decide

/-- C1, amended: if every component before position `k` starts cleanly
and the component at `k` has a start hook whose pending operation
rejects with reason `er`, then `startComponents()` rejects with
exactly that original start failure (no secondary error masks it) and
issues **no** stop call to any component. -/
theorem C1_start_failure_no_rollback_stops (as : Registry) (c : String) (en : Entry)
    (conv : Conv) (er : Nat) (bs : Registry)
    (h : ∀ p ∈ as, startsCleanly p = true)
    (hres : resolveStart en = some (conv, StartBehavior.fail er)) :
    (startComponentsLifecycle (as ++ (c, some en) :: bs)).result =
      Except.error (Err.reason er) ∧
    stopCalls (startComponentsLifecycle (as ++ (c, some en) :: bs)).trace = [] := by
  have h2 := startLoop_clean_fail c en conv er hres as h false false [] bs
  constructor
  · simp [startComponentsLifecycle, h2]
  · simp [startComponentsLifecycle, h2, startLoop_no_stopCalls]

/-- C1, witness: the amended theorem applied to the concrete
two-component registry. -/
theorem C1_witness :
    (startComponentsLifecycle regStartFail).result = Except.error (Err.reason 7) ∧
    stopCalls (startComponentsLifecycle regStartFail).trace = [] :=
  C1_start_failure_no_rollback_stops
    [("a", some { startC := some StartBehavior.ok, stopC := some StopBehavior.ok })]
    "b" { startC := some (StartBehavior.fail 7), stopC := some StopBehavior.ok }
    Conv.current 7 [] (by decide) (by decide)

/-- C2, counterexample: with one stoppable component and one
registered pre-stop handler, a second `stop()` call re-invokes the
component stop hook — the full teardown sequence is *not* executed
exactly once, and the second call does not resolve without
re-invoking stop hooks. -/
theorem C2_counterexample :
    stopCalls (stop stStopTwice).trace = [("a", Conv.current)] ∧
    stopCalls (stop (stop stStopTwice).state).trace = [("a", Conv.current)] := by
  decide

/-- C2, amended: `stop()` is idempotent only for the
`beforeStopComponents` phase — a second call runs no pre-stop handler
— but the component stop hooks are dispatched again, identically, on
every call, and the second call's outcome equals the first's. -/
theorem C2_second_stop_reruns_component_stops (st : ProgState) :
    hookRuns (stop (stop st).state).trace = [] ∧
    stopCalls (stop (stop st).state).trace = stopCalls (stop st).trace ∧
    (stop (stop st).state).result = (stop st).result := by
  refine ⟨?_, ?_, ?_⟩ <;>
    simp [stop, stopProgram, stopAllComponents, drainHooks,
      drainHooks_no_stopCalls, drainHooks_hookRuns, stopLoop_no_hookRuns]

/-- C3, counterexample: a registry whose entry `p` is a registered
Promise does **not** make `startComponents()` raise a fatal
configuration error — the run resolves successfully; the mistake is
only logged (while `p`'s lifecycle is indeed silently skipped and the
remaining entries start normally). -/
theorem C3_counterexample :
    (startComponentsLifecycle regPromise).result = Except.ok () ∧
    Event.log LogLevel.error (LogMsg.promiseComponent "p") ∈
      (startComponentsLifecycle regPromise).trace ∧
    startCalls (startComponentsLifecycle regPromise).trace = [("b", Conv.current)] ∧
    (startComponentsLifecycle regPromise).started = true := by
  decide

/-- C3, amended: for every cleanly-starting registry containing a
Promise-valued entry, `startComponents()` logs a configuration-error
diagnostic naming that entry but resolves successfully — the error is
reported, never raised. -/
theorem C3_promise_entry_logged_not_fatal (cs : Registry) (c : String) (en : Entry)
    (h : ∀ p ∈ cs, startsCleanly p = true) (hmem : (c, some en) ∈ cs)
    (hth : en.isThenable = true) :
    (startComponentsLifecycle cs).result = Except.ok () ∧
    Event.log LogLevel.error (LogMsg.promiseComponent c) ∈
      (startComponentsLifecycle cs).trace := by
  obtain ⟨pend2, h1, h2⟩ := startLoop_clean_ok cs h false false [] (by simp)
  have hm := startLoop_thenable_mem cs h c en hmem hth false false []
  constructor
  · by_cases hl : pend2.length = 0
    · simp [startComponentsLifecycle, h1, hl]
    · simp [startComponentsLifecycle, h1, hl, promiseAll_all_ok pend2 h2]
  · by_cases hl : pend2.length = 0 <;>
      simp [startComponentsLifecycle, h1, hl, promiseAll_all_ok pend2 h2, hm]

/-- C3, witness: the amended theorem applied to the concrete registry
with the Promise-valued entry `p`. -/
theorem C3_witness :
    (startComponentsLifecycle regPromise).result = Except.ok () ∧
    Event.log LogLevel.error (LogMsg.promiseComponent "p") ∈
      (startComponentsLifecycle regPromise).trace :=
  C3_promise_entry_logged_not_fatal regPromise "p" { isThenable := true }
    (by decide) (by decide) (by decide)

/-- C4, counterexample: for the empty registry `startComponents()`
resolves immediately with `live = true` and no hooks invoked, but
`started` remains **false**: the `pending.length == 0` early return
happens before `mutStarted = true` is ever reached. -/
theorem C4_counterexample :
    (startComponentsLifecycle []).result = Except.ok () ∧
    (startComponentsLifecycle []).live = true ∧
    startCalls (startComponentsLifecycle []).trace = [] ∧
    (startComponentsLifecycle []).started ≠ true := by
  decide

/-- C4, amended: whenever no start hook returns a pending operation
(in particular for the empty registry), `startComponents()` resolves
immediately with `live = true`, but `started` stays `false`. -/
theorem C4_no_pending_resolves_without_started (cs : Registry)
    (h : ∀ p ∈ cs, syncOnlyStart p = true) :
    (startComponentsLifecycle cs).result = Except.ok () ∧
    (startComponentsLifecycle cs).live = true ∧
    (startComponentsLifecycle cs).started = false := by
  have h1 := startLoop_syncOnly cs h false false []
  refine ⟨?_, ?_, ?_⟩ <;> simp [startComponentsLifecycle, h1]

/-- C4, witness: the amended theorem applied to the empty registry. -/
theorem C4_witness :
    (startComponentsLifecycle []).result = Except.ok () ∧
    (startComponentsLifecycle []).live = true ∧
    (startComponentsLifecycle []).started = false :=
  C4_no_pending_resolves_without_started [] (by decide)

/-- C5, counterexample: a single component with a pending start
observes `live() = false` (and `started() = false`) at dispatch time —
dispatch has begun, its own async start is outstanding, yet `live()`
is not observably true, contradicting the claim; both flags flip to
`true` only after the hook has completed. -/
theorem C5_counterexample :
    startObservations (startComponentsLifecycle regOnePending).trace = [(false, false)] ∧
    (startComponentsLifecycle regOnePending).live = true ∧
    (startComponentsLifecycle regOnePending).started = true := by
  decide

/-- C5, amended: every start hook, whenever dispatched, observes
`live() = false` and `started() = false` — the flags are set only
after the dispatch loop, in which each pending start has already been
individually awaited (so completions are sequential in registry
order, not unconstrained); on a successful run `live` ends up
`true`. -/
theorem C5_live_false_during_dispatch (cs : Registry)
    (h : (startComponentsLifecycle cs).result = Except.ok ()) :
    (startComponentsLifecycle cs).live = true ∧
    ∀ q ∈ startObservations (startComponentsLifecycle cs).trace, q = (false, false) := by
  have hobs := startLoop_observations cs false false []
  cases hp : (startLoop false false [] cs).2 with
  | error e =>
    exfalso
    simp [startComponentsLifecycle, hp] at h
  | ok pending =>
    by_cases hl : pending.length = 0
    · refine ⟨by simp [startComponentsLifecycle, hp, hl], ?_⟩
      intro q hq
      simp [startComponentsLifecycle, hp, hl] at hq
      exact hobs q hq
    · cases hpa : promiseAll pending with
      | ok u =>
        refine ⟨by simp [startComponentsLifecycle, hp, hl, hpa], ?_⟩
        intro q hq
        simp [startComponentsLifecycle, hp, hl, hpa] at hq
        exact hobs q hq
      | error e =>
        refine ⟨by simp [startComponentsLifecycle, hp, hl, hpa], ?_⟩
        intro q hq
        simp [startComponentsLifecycle, hp, hl, hpa] at hq
        exact hobs q hq

/-- C5, witness: the amended theorem applied to the single-component
registry with a pending start. -/
theorem C5_witness :
    (startComponentsLifecycle regOnePending).live = true ∧
    ∀ q ∈ startObservations (startComponentsLifecycle regOnePending).trace,
      q = (false, false) :=
  C5_live_false_during_dispatch regOnePending (by decide)

/-- C6: shutdown stops components strictly in reverse registry order.
For a registry whose entries all expose (cleanly succeeding) stop
hooks, the invoked stop sequence is exactly the reversed name list
(one call per component, fully sequential by construction of the
model); and if the stop hook of some component rejects, the loop
stops the components above it (in reverse order), invokes the failing
hook, surfaces exactly that error, and never reaches the components
beneath it. -/
theorem C6_reverse_order_stop_and_abort :
    (∀ cs : Registry, (∀ p ∈ cs, stopsCleanly p = true ∧ hasStopHook p = true) →
      (stopAllComponents cs).2 = Except.ok () ∧
      (stopCalls (stopAllComponents cs).1).map Prod.fst = (cs.map Prod.fst).reverse) ∧
    (∀ (bs : Registry) (c : String) (en : Entry) (conv : Conv) (er : Nat) (as : Registry),
      (∀ p ∈ as, stopsCleanly p = true) →
      resolveStop en = some (conv, StopBehavior.fail er) →
      (stopAllComponents (bs ++ (c, some en) :: as)).2 = Except.error (Err.reason er) ∧
      stopCalls (stopAllComponents (bs ++ (c, some en) :: as)).1 =
        stopCalls (stopAllComponents as).1 ++ [(c, conv)]) := by
  constructor
  · intro cs h
    have hrev : ∀ p ∈ cs.reverse, stopsCleanly p = true ∧ hasStopHook p = true :=
      fun p hm => h p (List.mem_reverse.mp hm)
    refine ⟨stopLoop_clean_ok cs.reverse (fun p hm => (hrev p hm).1), ?_⟩
    have := stopLoop_clean_names cs.reverse hrev
    simpa [stopAllComponents, List.map_reverse] using this
  · intro bs c en conv er as h hres
    have hrev : ∀ p ∈ as.reverse, stopsCleanly p = true :=
      fun p hm => h p (List.mem_reverse.mp hm)
    have hsplit : (bs ++ (c, some en) :: as).reverse =
        as.reverse ++ (c, some en) :: bs.reverse := by
      simp [List.reverse_append]
    obtain ⟨h1, h2⟩ := stopLoop_clean_append as.reverse hrev ((c, some en) :: bs.reverse)
    constructor
    · rw [stopAllComponents, hsplit, h2]
      cases conv <;> simp [stopLoop, hres]
    · rw [stopAllComponents, hsplit, h1, stopCalls_append]
      have hone : stopCalls (stopLoop ((c, some en) :: bs.reverse)).1 = [(c, conv)] := by
        cases conv <;> simp [stopLoop, hres]
      rw [hone, stopAllComponents]

/-- C6, witness: both parts of the theorem applied to concrete
registries — two cleanly-stopping components stopped as `b` then `a`,
and a three-component registry whose middle stop hook rejects with
reason 9, so `c` is stopped, `b`'s stop is invoked and its error
surfaces, and `a` is never stopped. -/
theorem C6_witness :
    ((stopAllComponents regTwoStops).2 = Except.ok () ∧
     (stopCalls (stopAllComponents regTwoStops).1).map Prod.fst =
       (regTwoStops.map Prod.fst).reverse) ∧
    ((stopAllComponents regStopFail).2 = Except.error (Err.reason 9) ∧
     stopCalls (stopAllComponents regStopFail).1 =
       stopCalls (stopAllComponents [("c", some { stopC := some StopBehavior.ok })]).1 ++
         [("b", Conv.current)]) :=
  ⟨C6_reverse_order_stop_and_abort.1 regTwoStops (by decide),
   C6_reverse_order_stop_and_abort.2
     [("a", some { stopC := some StopBehavior.ok })] "b"
     { stopC := some (StopBehavior.fail 9) } Conv.current 9
     [("c", some { stopC := some StopBehavior.ok })] (by decide) (by decide)⟩

/-- C7: `stop()` runs every handler registered via
`beforeStopComponents` exactly once, in FIFO registration order
(failing handlers included — a rejection is logged and swallowed,
never blocking later handlers), and all handlers run before any
component stop hook; the component-stop phase always runs and decides
the overall outcome. -/
theorem C7_hooks_fifo_before_stops (st : ProgState) :
    hookRuns (stopProgram st).trace = st.queue.map Hook.id ∧
    stopCalls (stopProgram st).trace = stopCalls (stopAllComponents st.components).1 ∧
    (stopProgram st).result = (stopAllComponents st.components).2 ∧
    ∃ t1 t2, (stopProgram st).trace = t1 ++ t2 ∧ stopCalls t1 = [] ∧ hookRuns t2 = [] := by
    refine ⟨?_, ?_, rfl,
      drainHooks st.queue, (stopAllComponents st.components).1, rfl,
      drainHooks_no_stopCalls st.queue, ?_⟩
    · simp [stopProgram, drainHooks_hookRuns, stopAllComponents, stopLoop_no_hookRuns]
    · simp [stopProgram, drainHooks_no_stopCalls]
    · simp [stopAllComponents, stopLoop_no_hookRuns]

/-- C8: capability resolution for lifecycle hooks.  A component
exposing only the deprecated plain-named hooks still has them invoked
(under the deprecated convention, with a deprecation warning logged);
a component exposing both conventions fires only the
current-convention hook, with no deprecation warning — whatever the
hooks' behaviours. -/
theorem C8_hook_convention_resolution (c : String) (bS bS2 : StartBehavior)
    (bT bT2 : StopBehavior) :
    (Event.startCall c Conv.deprecated false false ∈
       (startComponentsLifecycle [(c, some { startD := some bS })]).trace ∧
     Event.log LogLevel.warn (LogMsg.deprecatedStart c) ∈
       (startComponentsLifecycle [(c, some { startD := some bS })]).trace) ∧
    (Event.stopCall c Conv.deprecated ∈
       (stopAllComponents [(c, some { stopD := some bT })]).1 ∧
     Event.log LogLevel.warn (LogMsg.deprecatedStop c) ∈
       (stopAllComponents [(c, some { stopD := some bT })]).1) ∧
    (startCalls (startComponentsLifecycle
        [(c, some { startC := some bS, startD := some bS2 })]).trace = [(c, Conv.current)] ∧
     Event.log LogLevel.warn (LogMsg.deprecatedStart c) ∉
       (startComponentsLifecycle
         [(c, some { startC := some bS, startD := some bS2 })]).trace) ∧
    (stopCalls (stopAllComponents
        [(c, some { stopC := some bT, stopD := some bT2 })]).1 = [(c, Conv.current)] ∧
     Event.log LogLevel.warn (LogMsg.deprecatedStop c) ∉
       (stopAllComponents [(c, some { stopC := some bT, stopD := some bT2 })]).1) := by
  refine ⟨⟨?_, ?_⟩, ⟨?_, ?_⟩, ⟨?_, ?_⟩, ⟨?_, ?_⟩⟩ <;>
  · first
      | (cases bS <;>
          simp [startComponentsLifecycle, startLoop, resolveStart, promiseAll])
      | (cases bT <;>
          simp [stopAllComponents, stopLoop, resolveStop])

/-- C9: `startComponents()` has at-most-once dispatch semantics — on a
fresh program state the first call performs the full start lifecycle,
and the immediately repeated call dispatches nothing (its trace is
only the repeated-call warning) while returning the same outcome. -/
theorem C9_start_at_most_once (st : ProgState) (h : st.componentsStarted = none) :
    (startComponents st).result = (startComponentsLifecycle st.components).result ∧
    (startComponents st).trace = (startComponentsLifecycle st.components).trace ∧
    (startComponents (startComponents st).state).result = (startComponents st).result ∧
    startCalls (startComponents (startComponents st).state).trace = [] ∧
    (startComponents (startComponents st).state).trace =
      [Event.log LogLevel.warn LogMsg.startOnceWarning] := by
  simp [startComponents, h]

/-- C9, witness: the theorem applied to the freshly wired program
state. -/
theorem C9_witness :
    (startComponents stFresh).result = (startComponentsLifecycle stFresh.components).result ∧
    (startComponents stFresh).trace = (startComponentsLifecycle stFresh.components).trace ∧
    (startComponents (startComponents stFresh).state).result =
      (startComponents stFresh).result ∧
    startCalls (startComponents (startComponents stFresh).state).trace = [] ∧
    (startComponents (startComponents stFresh).state).trace =
      [Event.log LogLevel.warn LogMsg.startOnceWarning] :=
  C9_start_at_most_once stFresh rfl

/-- C10: the `beforeStopComponents` handler queue is consumed
destructively — after one `stop()` the queue is empty, across two
successive `stop()` calls each registered handler runs exactly once
in total (all during the first call), while the component stop hooks
are dispatched again, identically, on the second call. -/
theorem C10_hooks_once_stops_redispatched (st : ProgState) :
    (stop st).state.queue = [] ∧
    hookRuns (stop st).trace ++ hookRuns (stop (stop st).state).trace =
      st.queue.map Hook.id ∧
    stopCalls (stop (stop st).state).trace = stopCalls (stop st).trace := by
  refine ⟨rfl, ?_, ?_⟩ <;>
    simp [stop, stopProgram, stopAllComponents, drainHooks, drainHooks_hookRuns,
      drainHooks_no_stopCalls, stopLoop_no_hookRuns]

end Lifecycle
